import Mathlib

/-!
# Verification of the Texas Hold'em engine

Shallow embedding of the poker engine found in `src/utils/pokerLogic.ts`,
`src/constants.ts`, `src/types.ts` and the hand-lifecycle / betting handlers of
`src/App.tsx` (with the networked variant in `src/unnamed/part_001` consulted
where the claims cite it), together with proofs and refutations of the
specification's claims about it.

Conventions of the embedding:
* JS numbers that only ever hold small non-negative integers in the source are
  `Nat`; chip/pot/bet arithmetic is `Int` (JS numbers under `+`/`-`).
* The per-card random `id` field of the source is presentation-only (the spec
  says the engine must rely solely on value equality), so `Card` is the pair
  (suit, rank).
* `Math.random()`-driven choices are parametrised by an injected `rand`
  function, exactly where the source consumes randomness.
* React `setX` calls inside one handler are modelled by threading a single
  state value; reads of a state variable inside a handler are reads of the
  value the variable had when the handler started (JS closure semantics),
  while mutations of the shared `Player` objects are visible immediately —
  both behaviours are reproduced where they matter and noted at the spot.
-/

/-- `Suit` from `src/types.ts`. -/
inductive Suit where
  | hearts | diamonds | clubs | spades
deriving DecidableEq, Repr, Fintype

/-- `Rank` from `src/types.ts`.  The enum values are the strings
`'2' … '10', 'J', 'Q', 'K', 'A'`. -/
inductive Rank where
  | two | three | four | five | six | seven | eight | nine | ten
  | jack | queen | king | ace
deriving DecidableEq, Repr, Fintype

/-- `Card` from `src/types.ts`, without the presentation-only random `id`. -/
structure Card where
  suit : Suit
  rank : Rank
deriving DecidableEq, Repr

/-- `RANKS` from `src/constants.ts` (Two … Ace). -/
def RANKS : List Rank :=
  [.two, .three, .four, .five, .six, .seven, .eight, .nine, .ten,
   .jack, .queen, .king, .ace]

/-- `SUITS` from `src/constants.ts`. -/
def SUITS : List Suit := [.hearts, .diamonds, .clubs, .spades]

/-- `RANK_VALUE` from `src/constants.ts`. -/
def RANK_VALUE : Rank → Nat
  | .two => 2 | .three => 3 | .four => 4 | .five => 5 | .six => 6
  | .seven => 7 | .eight => 8 | .nine => 9 | .ten => 10
  | .jack => 11 | .queen => 12 | .king => 13 | .ace => 14

/-- `createDeck` from `src/utils/pokerLogic.ts`: for each suit in `SUITS`,
push one card per rank in `RANKS`. -/
def createDeck : List Card :=
  (SUITS.map (fun suit => RANKS.map (fun rank => Card.mk suit rank))).flatten

/-- One step of the Fisher–Yates loop body
`[newDeck[i], newDeck[j]] = [newDeck[j], newDeck[i]]`. -/
def listSwap {α : Type} (l : List α) (i j : Nat) : List α :=
  match l[i]?, l[j]? with
  | some a, some b => (l.set i b).set j a
  | _, _ => l

/-- The `for (let i = length - 1; i > 0; i--)` loop of `shuffleDeck`:
the argument `i` counts down to 0, swapping index `i` with
`j = floor(random * (i + 1))`. -/
def fisherYatesLoop {α : Type} (rand : Nat → Nat) : Nat → List α → List α
  | 0, l => l
  | i + 1, l => fisherYatesLoop rand i (listSwap l (i + 1) (rand (i + 1) % (i + 2)))

/-- `shuffleDeck` from `src/utils/pokerLogic.ts`: copies the deck and runs
Fisher–Yates from the last index down to 1.  `rand i % (i+1)` models
`Math.floor(Math.random() * (i + 1))`, a value in `[0, i]`. -/
def shuffleDeck {α : Type} (rand : Nat → Nat) (deck : List α) : List α :=
  fisherYatesLoop rand (deck.length - 1) deck

/-- Stable insertion (descending by rank value) used to model the stable
`allCards.sort((a, b) => RANK_VALUE[b.rank] - RANK_VALUE[a.rank])`:
a later-arriving card goes in front of strictly lower ranked cards and behind
equal or higher ranked ones, which is exactly stable descending order. -/
def insertCardDesc (c : Card) : List Card → List Card
  | [] => [c]
  | x :: xs =>
      if RANK_VALUE x.rank ≤ RANK_VALUE c.rank then c :: x :: xs
      else x :: insertCardDesc c xs

/-- The card sort of `evaluateHand` (descending by `RANK_VALUE`). -/
def sortCardsDesc (l : List Card) : List Card := l.foldr insertCardDesc []

/-- The scan inside `getFlushSuit`: walk the cards keeping per-suit counts and
return the first suit whose count reaches 5. -/
def flushScan : List Card → (Suit → Nat) → Option Suit
  | [], _ => none
  | c :: rest, counts =>
      let n := counts c.suit + 1
      if 5 ≤ n then some c.suit
      else flushScan rest (fun s => if s = c.suit then n else counts s)

/-- `getFlushSuit` from `src/utils/pokerLogic.ts`. -/
def getFlushSuit (cards : List Card) : Option Suit :=
  flushScan cards (fun _ => 0)

/-- First-occurrence deduplication, modelling `new Set(...)` insertion order
(for `Nat` values): keep a value when it has not been seen yet. -/
def dedupFirstNatGo (seen : List Nat) : List Nat → List Nat
  | [] => []
  | v :: rest =>
      if v ∈ seen then dedupFirstNatGo seen rest
      else v :: dedupFirstNatGo (v :: seen) rest

/-- `Array.from(new Set(values))` for `Nat` values. -/
def dedupFirstNat (l : List Nat) : List Nat := dedupFirstNatGo [] l

/-- Insertion into a descending `Nat` list, for the
`.sort((a, b) => b - a)` of `getStraightHigh`. -/
def insertNatDesc (v : Nat) : List Nat → List Nat
  | [] => [v]
  | x :: xs => if x ≤ v then v :: x :: xs else x :: insertNatDesc v xs

/-- Descending sort on `Nat` lists. -/
def sortNatDesc (l : List Nat) : List Nat := l.foldr insertNatDesc []

/-- The streak loop of `getStraightHigh`: for `i` from the current position
while `i < length - 1`, extend the streak when `values[i] - values[i+1] = 1`
and return `values[i - 3]` (the high card of the 5-window) once the streak
reaches 4.  The subtraction is on `Int`, as in JS. -/
def streakLoopF (vals : List Nat) : Nat → Nat → Nat → Option Nat
  | 0, _, _ => none
  | fuel + 1, i, streak =>
      if i + 1 < vals.length then
        if (vals.getD i 0 : Int) - (vals.getD (i + 1) 0 : Int) = 1 then
          if 4 ≤ streak + 1 then some (vals.getD (i - 3) 0)
          else streakLoopF vals fuel (i + 1) (streak + 1)
        else streakLoopF vals fuel (i + 1) 0
      else none

/-- The streak loop starting at index `i`; `vals.length` units of fuel are
always enough since the index grows by one per step and the loop stops as
soon as `i + 1 ≥ vals.length`. -/
def streakLoop (vals : List Nat) (i streak : Nat) : Option Nat :=
  streakLoopF vals vals.length i streak

/-- `getStraightHigh` from `src/utils/pokerLogic.ts`: distinct rank values
sorted descending, with a low Ace (value 1) appended when an Ace is present,
then the streak scan. -/
def getStraightHigh (cards : List Card) : Option Nat :=
  let uniqueValues := sortNatDesc (dedupFirstNat (cards.map (fun c => RANK_VALUE c.rank)))
  let vals := if 14 ∈ uniqueValues then uniqueValues ++ [1] else uniqueValues
  streakLoop vals 0 0

/-- Ranks whose enum string (`'2'`…`'10'`) is an array-index-like key of the
`counts` record in `getNOfAKind`. -/
def isNumericKey (r : Rank) : Bool := decide (RANK_VALUE r ≤ 10)

/-- First-occurrence deduplication for ranks (record-key creation order):
a rank creates a key only the first time it appears. -/
def dedupFirstRankGo (seen : List Rank) : List Rank → List Rank
  | [] => []
  | r :: rest =>
      if r ∈ seen then dedupFirstRankGo seen rest
      else r :: dedupFirstRankGo (r :: seen) rest

/-- The record keys of `getNOfAKind`'s `counts`, in creation order. -/
def dedupFirstRank (l : List Rank) : List Rank := dedupFirstRankGo [] l

/-- Ascending insertion by rank value. -/
def insertRankAsc (r : Rank) : List Rank → List Rank
  | [] => [r]
  | x :: xs => if RANK_VALUE r ≤ RANK_VALUE x then r :: x :: xs else x :: insertRankAsc r xs

/-- Ascending sort of ranks by value. -/
def sortRanksAsc (l : List Rank) : List Rank := l.foldr insertRankAsc []

/-- The `for (const rank in counts)` enumeration order of `getNOfAKind`:
JS objects enumerate array-index-like keys (the numeric rank strings
`'2'`…`'10'`) first, in ascending numeric order, and only then the remaining
string keys (`'J'`,`'Q'`,`'K'`,`'A'`) in insertion order, i.e. in order of
first appearance in the card list. -/
def keysInOrder (cards : List Card) : List Rank :=
  let present := dedupFirstRank (cards.map (fun c => c.rank))
  sortRanksAsc (present.filter isNumericKey) ++ present.filter (fun r => !(isNumericKey r))

/-- `getNOfAKind` from `src/utils/pokerLogic.ts`: group the cards by rank,
walk the record keys in JS enumeration order, and return the first group with
at least `n` cards, truncated to `n`. -/
def getNOfAKind (cards : List Card) (n : Nat) : Option (List Card) :=
  (keysInOrder cards).findSome? (fun r =>
    let g := cards.filter (fun c => c.rank = r)
    if n ≤ g.length then some (g.take n) else none)

/-- `HandEvaluation` from `src/types.ts`. -/
structure HandEvaluation where
  score : Nat
  rankName : String
  bestFive : List Card
deriving DecidableEq, Repr

/-- `pair1[0].rank` etc.: rank of the first card of a group (the groups the
source indexes into are never empty). -/
def firstRank : List Card → Rank
  | [] => Rank.two
  | c :: _ => c.rank

/-- Step 1 of `evaluateHand` (straight flush): requires a flush suit and a
straight; rechecks the straight within the flush suit's cards. -/
def sfAttempt (allCards : List Card) (flushSuit : Option Suit) (straightHigh : Option Nat) :
    Option HandEvaluation :=
  match flushSuit, straightHigh with
  | some fs, some _ =>
      let flushCards := allCards.filter (fun c => c.suit = fs)
      match getStraightHigh flushCards with
      | some sfHigh => some ⟨800 + sfHigh, "Straight Flush", flushCards.take 5⟩
      | none => none
  | _, _ => none

/-- Step 2 of `evaluateHand` (four of a kind): `bestFive` is just the four
cards returned by `getNOfAKind(allCards, 4)`. -/
def quadsAttempt (allCards : List Card) : Option HandEvaluation :=
  match getNOfAKind allCards 4 with
  | some quads => some ⟨700 + RANK_VALUE (firstRank quads), "Four of a Kind", quads⟩
  | none => none

/-- Step 3 of `evaluateHand` (full house). -/
def fullHouseAttempt (allCards : List Card) (trips : Option (List Card)) :
    Option HandEvaluation :=
  match trips with
  | some t =>
      let remaining := allCards.filter (fun c => c.rank ≠ firstRank t)
      match getNOfAKind remaining 2 with
      | some pr => some ⟨600 + RANK_VALUE (firstRank t), "Full House", t ++ pr⟩
      | none => none
  | none => none

/-- Step 4 of `evaluateHand` (flush). -/
def flushAttempt (allCards : List Card) (flushSuit : Option Suit) :
    Option HandEvaluation :=
  match flushSuit with
  | some fs =>
      let flushCards := allCards.filter (fun c => c.suit = fs)
      some ⟨500 + RANK_VALUE (firstRank flushCards), "Flush", flushCards.take 5⟩
  | none => none

/-- Step 5 of `evaluateHand` (straight): `bestFive` is the 5 highest cards,
not necessarily the straight cards (a simplification noted in the source). -/
def straightAttempt (allCards : List Card) (straightHigh : Option Nat) :
    Option HandEvaluation :=
  match straightHigh with
  | some sh => some ⟨400 + sh, "Straight", allCards.take 5⟩
  | none => none

/-- Step 6 of `evaluateHand` (three of a kind). -/
def tripsAttempt (allCards : List Card) (trips : Option (List Card)) :
    Option HandEvaluation :=
  match trips with
  | some t =>
      let kickers := (allCards.filter (fun c => c.rank ≠ firstRank t)).take 2
      some ⟨300 + RANK_VALUE (firstRank t), "Three of a Kind", t ++ kickers⟩
  | none => none

/-- Steps 7–8 of `evaluateHand` (two pair, falling through to one pair).
The single two-pair kicker `allCards.filter(...)[0]` is modelled as
`.take 1`. -/
def pairAttempt (allCards : List Card) : Option HandEvaluation :=
  match getNOfAKind allCards 2 with
  | some p1 =>
      let remaining := allCards.filter (fun c => c.rank ≠ firstRank p1)
      match getNOfAKind remaining 2 with
      | some p2 =>
          let kicker := (allCards.filter
            (fun c => c.rank ≠ firstRank p1 ∧ c.rank ≠ firstRank p2)).take 1
          some ⟨200 + RANK_VALUE (firstRank p1), "Two Pair", p1 ++ p2 ++ kicker⟩
      | none => some ⟨100 + RANK_VALUE (firstRank p1), "Pair", p1 ++ remaining.take 3⟩
  | none => none

/-- Step 9 of `evaluateHand` (high card). -/
def highCardEval (allCards : List Card) : HandEvaluation :=
  ⟨RANK_VALUE (firstRank allCards), "High Card", allCards.take 5⟩

/-- The body of `evaluateHand` after sorting: the 9 priority steps of
`src/utils/pokerLogic.ts`, first match wins. -/
def evalSorted (allCards : List Card) : HandEvaluation :=
  let flushSuit := getFlushSuit allCards
  let straightHigh := getStraightHigh allCards
  let trips := getNOfAKind allCards 3
  match sfAttempt allCards flushSuit straightHigh with
  | some r => r
  | none =>
  match quadsAttempt allCards with
  | some r => r
  | none =>
  match fullHouseAttempt allCards trips with
  | some r => r
  | none =>
  match flushAttempt allCards flushSuit with
  | some r => r
  | none =>
  match straightAttempt allCards straightHigh with
  | some r => r
  | none =>
  match tripsAttempt allCards trips with
  | some r => r
  | none =>
  match pairAttempt allCards with
  | some r => r
  | none => highCardEval allCards

/-- `evaluateHand` from `src/utils/pokerLogic.ts`: concatenate hole and
community cards, sort descending by rank value, then classify. -/
def evaluateHand (holeCards communityCards : List Card) : HandEvaluation :=
  evalSorted (sortCardsDesc (holeCards ++ communityCards))

/-- `PlayerStatus` from `src/types.ts`. -/
inductive PlayerStatus where
  | active | folded | allIn | busted
deriving DecidableEq, Repr

/-- `Player` from `src/types.ts`.  `name` and `seatIndex` play no role in the
claims' logic (the action ring is the player list itself) and are omitted;
`id` is a `Nat` standing for the source's unique string id. -/
structure Player where
  id : Nat
  chips : Int
  bet : Int
  hand : List Card
  status : PlayerStatus
  isDealer : Bool
  isSmallBlind : Bool
  isBigBlind : Bool
deriving DecidableEq, Repr

/-- `GamePhase` from `src/types.ts`. -/
inductive GamePhase where
  | setup | preFlop | flop | turn | river | showdown
deriving DecidableEq, Repr

/-- The game-relevant React state of `src/App.tsx` gathered into one value.
`logCount` counts `addLog` calls (log entries are the only output the UI
surfaces besides the state itself); `pendingNextPhase` records a
`setTimeout(nextPhase, …)` having been scheduled, to be discharged by
applying `nextPhase` to this state. -/
structure AppState where
  phase : GamePhase
  players : List Player
  deck : List Card
  communityCards : List Card
  pot : Int
  currentBet : Int
  activePlayerIdx : Nat
  dealerIdx : Nat
  winnerIdx : Option Nat
  logCount : Nat
  pendingNextPhase : Bool
deriving DecidableEq, Repr

/-- `SMALL_BLIND` from `src/App.tsx`. -/
def SMALL_BLIND : Int := 10

/-- `BIG_BLIND` from `src/App.tsx`. -/
def BIG_BLIND : Int := 20

/-- Default player used only to total `List.getD`; all indexing in the
handlers stays in bounds on the states the theorems use. -/
def dP : Player := ⟨0, 0, 0, [], .active, false, false, false⟩

/-- In-place update of one player object (`players[i].x = …`). -/
def setAt (l : List Player) (i : Nat) (f : Player → Player) : List Player :=
  match l[i]? with
  | some p => l.set i (f p)
  | none => l

/-- Sum of all players' chips. -/
def sumChips (l : List Player) : Int := (l.map (fun p => p.chips)).sum

/-- `newPlayers.reduce((acc, p) => acc + p.bet, 0)`. -/
def sumBets (l : List Player) : Int := (l.map (fun p => p.bet)).sum

/-- `newDeck.pop()`: removes and returns the last card. -/
def popCard (d : List Card) : Card × List Card :=
  ((d.getLast?).getD ⟨.hearts, .two⟩, d.dropLast)

/-- `resetPlayers.forEach(p => { p.hand = [newDeck.pop()!, newDeck.pop()!] })`
from `startNewHand`: players in list order each draw two cards. -/
def dealHands : List Player → List Card → List Player × List Card
  | [], d => ([], d)
  | p :: rest, d =>
      let (c1, d1) := popCard d
      let (c2, d2) := popCard d1
      let (rest', d') := dealHands rest d2
      ({ p with hand := [c1, c2] } :: rest', d')

/-- The status test of the `while` loop in `moveToNextPlayer`
(`Folded || Busted || AllIn`): exactly the non-`Active` statuses. -/
def skipFBA (p : Player) : Bool :=
  match p.status with
  | .folded => true | .busted => true | .allIn => true | .active => false

/-- The status test of the `while` loop in `nextPhase`
(`!== Active && !== AllIn`). -/
def skipNotActiveAllIn (p : Player) : Bool :=
  match p.status with
  | .active => false | .allIn => false | .folded => true | .busted => true

/-- The wrapping index scan shared by `moveToNextPlayer` and `nextPhase`:
advance while the current player satisfies `skip` and fewer than
`players.length` steps were taken.  The structural fuel only bounds the
recursion; `length + 1 - cnt` units are always enough because the loop
guard `cnt < length` stops the scan first (see `scanIdx`). -/
def scanIdxF (skip : Player → Bool) (players : List Player) :
    Nat → Nat → Nat → Nat
  | 0, idx, _ => idx
  | fuel + 1, idx, cnt =>
      if skip (players.getD idx dP) ∧ cnt < players.length then
        scanIdxF skip players fuel ((idx + 1) % players.length) (cnt + 1)
      else idx

/-- The `while (skip … && count < players.length)` scan starting at `idx`
with step counter `cnt`. -/
def scanIdx (skip : Player → Bool) (players : List Player) (idx cnt : Nat) : Nat :=
  scanIdxF skip players (players.length + 1 - cnt) idx cnt

/-- `moveToNextPlayer` from `src/App.tsx` (lines 318–356).  `cb` is the
`currentBet` the handler closed over: for `handleRaise` this is the value
from before the raise (React state reads inside one handler see the old
value), for the other callers it equals the state's `currentBet`.
The two `setTimeout(nextPhase, …)` branches leave `activePlayerIdx` as it is
and set `pendingNextPhase`. -/
def moveToNextPlayer (s : AppState) (cb : Int) : AppState :=
  let nextIdx := scanIdx skipFBA s.players ((s.activePlayerIdx + 1) % s.players.length) 0
  let actives := s.players.filter (fun p => p.status = .active)
  let allIns := s.players.filter (fun p => p.status = .allIn)
  if actives.length = 0 ∨ (actives.length = 1 ∧ 0 < allIns.length) then
    { s with pendingNextPhase := true }
  else if (actives.all (fun p => p.bet = cb)) ∧
      (s.phase ≠ .preFlop ∨ BIG_BLIND < cb ∨ actives.all (fun p => 0 < p.bet)) then
    { s with pendingNextPhase := true }
  else
    { s with activePlayerIdx := nextIdx }

/-- The first-max scan of `handleShowdown`: `bestScore` starts at `-1` and a
player only takes the lead with a strictly greater score, so the earliest
player with the maximal score wins. -/
def pickWinnerLoop (comm : List Card) : List Player → Option Player → Int → Option Player
  | [], w, _ => w
  | p :: rest, w, best =>
      let sc : Int := (evaluateHand p.hand comm).score
      if best < sc then pickWinnerLoop comm rest (some p) sc
      else pickWinnerLoop comm rest w best

/-- `handleShowdown` from `src/App.tsx` (lines 188–236): set phase to
Showdown, find the single first-max winner among non-Folded non-Busted
players, add the pot to that player's chips (the pot itself is not zeroed),
record `winnerIdx` and log twice.  The auto-next-hand countdown is a host
timer and is not part of the state transition. -/
def handleShowdown (s : AppState) : AppState :=
  let s0 := { s with phase := .showdown }
  let activePlayers := s.players.filter (fun p => p.status ≠ .folded ∧ p.status ≠ .busted)
  if activePlayers.length = 0 then s0
  else
    match pickWinnerLoop s.communityCards activePlayers none (-1) with
    | none => s0
    | some w =>
        let wIdx := s.players.findIdx (fun p => p.id == w.id)
        let ps := setAt s.players wIdx (fun p => { p with chips := p.chips + s.pot })
        { s0 with players := ps, winnerIdx := some wIdx, logCount := s.logCount + 2 }

/-- `nextPhase` from `src/App.tsx` (lines 142–186): zero all bets, reset
`currentBet`, move the turn pointer to the first Active-or-AllIn player after
the dealer, then deal community cards (or run the showdown after the
River). -/
def nextPhase (s : AppState) : AppState :=
  let ps := s.players.map (fun p => { p with bet := 0 })
  let nextActive := scanIdx skipNotActiveAllIn ps ((s.dealerIdx + 1) % ps.length) 0
  let s1 := { s with players := ps, currentBet := 0, activePlayerIdx := nextActive,
                     pendingNextPhase := false }
  match s.phase with
  | .preFlop =>
      let (c1, d1) := popCard s.deck
      let (c2, d2) := popCard d1
      let (c3, d3) := popCard d2
      { s1 with communityCards := s.communityCards ++ [c1, c2, c3], deck := d3,
                phase := .flop, logCount := s.logCount + 1 }
  | .flop =>
      let (c1, d1) := popCard s.deck
      { s1 with communityCards := s.communityCards ++ [c1], deck := d1,
                phase := .turn, logCount := s.logCount + 1 }
  | .turn =>
      let (c1, d1) := popCard s.deck
      { s1 with communityCards := s.communityCards ++ [c1], deck := d1,
                phase := .river, logCount := s.logCount + 1 }
  | _ => handleShowdown s1

/-- `handleFold` from `src/App.tsx` (lines 238–273): mark the actor Folded;
if a single non-Folded non-Busted player remains they immediately receive
`pot + Σ bets` (although each bet was already added to the pot when it was
made), all bets are zeroed and the pot is zeroed; otherwise the turn
advances. -/
def handleFold (s : AppState) : AppState :=
  let ps := setAt s.players s.activePlayerIdx (fun p => { p with status := .folded })
  let s1 := { s with players := ps, logCount := s.logCount + 1 }
  let remaining := ps.filter (fun p => p.status ≠ .folded ∧ p.status ≠ .busted)
  if remaining.length = 1 then
    let winner := remaining.headD dP
    let winIdx := ps.findIdx (fun p => p.id == winner.id)
    let betSum := sumBets ps
    let ps2 := setAt ps winIdx (fun p => { p with chips := p.chips + s.pot + betSum })
    let ps3 := ps2.map (fun p => { p with bet := 0 })
    { s1 with players := ps3, pot := 0, phase := .showdown, winnerIdx := some winIdx,
              logCount := s.logCount + 2 }
  else
    moveToNextPlayer s1 s.currentBet

/-- `handleCheckCall` from `src/App.tsx` (lines 275–296): pay
`currentBet - bet`, going all-in when that consumes the stack. -/
def handleCheckCall (s : AppState) : AppState :=
  let pRef := s.players.getD s.activePlayerIdx dP
  let amountToCall := s.currentBet - pRef.bet
  let s1 :=
    if pRef.chips ≤ amountToCall then
      { s with pot := s.pot + pRef.chips,
               players := setAt s.players s.activePlayerIdx
                 (fun p => { p with bet := p.bet + p.chips, chips := 0, status := .allIn }),
               logCount := s.logCount + 1 }
    else
      { s with pot := s.pot + amountToCall,
               players := setAt s.players s.activePlayerIdx
                 (fun p => { p with chips := p.chips - amountToCall,
                                    bet := p.bet + amountToCall }),
               logCount := s.logCount + 1 }
  moveToNextPlayer s1 s.currentBet

/-- `handleRaise` from `src/App.tsx` (lines 298–316): the new total bet is
`currentBet + amount`; if the required additional chips exceed the stack the
handler just `return`s — the state (log included) is untouched and nothing is
surfaced.  On success the bet, pot and `currentBet` are updated and the turn
advances (`moveToNextPlayer` still reads the pre-raise `currentBet` from its
closure). -/
def handleRaise (s : AppState) (amount : Int) : AppState :=
  let pRef := s.players.getD s.activePlayerIdx dP
  let totalBet := s.currentBet + amount
  let needed := totalBet - pRef.bet
  if pRef.chips < needed then s
  else
    let ps := setAt s.players s.activePlayerIdx
      (fun p => { p with chips := p.chips - needed, bet := totalBet })
    moveToNextPlayer
      { s with players := ps, pot := s.pot + needed, currentBet := totalBet,
               logCount := s.logCount + 1 }
      s.currentBet

/-- `startNewHand` from `src/App.tsx` (lines 75–140): reshuffle, reset and
drop Busted players, assign dealer/blind positions (`sbIdx = dealer+1`,
`bbIdx = dealer+2`, with no heads-up special case), deal two hole cards each,
post capped blinds, and open pre-flop with the player after the big blind.
`s` supplies the fields that survive a hand boundary (the log). -/
def startNewHand (rand : Nat → Nat) (newDealerIdx : Nat) (currentPlayers : List Player)
    (s : AppState) : AppState :=
  let newDeck := shuffleDeck rand createDeck
  let resetPlayers := (currentPlayers.map (fun p =>
      { p with hand := [], bet := 0,
               status := if 0 < p.chips then PlayerStatus.active else PlayerStatus.busted,
               isDealer := false, isSmallBlind := false, isBigBlind := false })).filter
    (fun p => p.status ≠ .busted)
  if resetPlayers.length < 2 then
    { s with phase := .setup, players := resetPlayers, logCount := s.logCount + 1,
             pendingNextPhase := false }
  else
    let n := resetPlayers.length
    let sbIdx := (newDealerIdx + 1) % n
    let bbIdx := (newDealerIdx + 2) % n
    let ps1 := setAt resetPlayers (newDealerIdx % n) (fun p => { p with isDealer := true })
    let ps2 := setAt ps1 sbIdx (fun p => { p with isSmallBlind := true })
    let ps3 := setAt ps2 bbIdx (fun p => { p with isBigBlind := true })
    let (ps4, deck1) := dealHands ps3 newDeck
    let sbAmt := min (ps4.getD sbIdx dP).chips SMALL_BLIND
    let ps5 := setAt ps4 sbIdx (fun p => { p with chips := p.chips - sbAmt, bet := sbAmt })
    let bbAmt := min (ps5.getD bbIdx dP).chips BIG_BLIND
    let ps6 := setAt ps5 bbIdx (fun p => { p with chips := p.chips - bbAmt, bet := bbAmt })
    { phase := .preFlop, players := ps6, deck := deck1, communityCards := [],
      pot := sbAmt + bbAmt, currentBet := BIG_BLIND, activePlayerIdx := (bbIdx + 1) % n,
      dealerIdx := newDealerIdx, winnerIdx := none, logCount := s.logCount + 1,
      pendingNextPhase := false }

/-- A fresh player with stack `c`, as created by `addPlayer`/`startGame`. -/
def mkTestPlayer (i : Nat) (c : Int) : Player :=
  ⟨i, c, 0, [], .active, false, false, false⟩

/-- The pre-game state (`GamePhase.Setup` with empty table). -/
def emptyState : AppState := ⟨.setup, [], [], [], 0, 0, 0, 0, none, 0, false⟩

/-- `pot + Σ players.chips + Σ players.bet`, the quantity the specification
declares constant across a hand. -/
def conservedSum (s : AppState) : Int :=
  s.pot + sumChips s.players + sumBets s.players

/-- Heads-up table for the chip-conservation and blind-assignment runs:
two players with 1000 chips each, dealer at index 0, deterministic
shuffle source. -/
def headsUpPlayers : List Player := [mkTestPlayer 0 1000, mkTestPlayer 1 1000]

/-- The heads-up hand right after `startNewHand`. -/
def headsUpHand : AppState := startNewHand (fun _ => 0) 0 headsUpPlayers emptyState

/-- The heads-up hand after the small blind folds pre-flop (the active player
at hand start is index 1, the small blind). -/
def headsUpAfterFold : AppState := handleFold headsUpHand

/-- Three-player table where the small blind (15 chips) will be forced
all-in by calling the big blind. -/
def shortStackHand : AppState :=
  startNewHand (fun _ => 0) 0 [mkTestPlayer 0 1000, mkTestPlayer 1 15, mkTestPlayer 2 1000]
    emptyState

/-- `shortStackHand` after the button calls and the small blind calls
all-in; `moveToNextPlayer` then closes pre-flop betting, scheduling
`nextPhase`. -/
def shortStackClosed : AppState := handleCheckCall (handleCheckCall shortStackHand)

/-- Showdown state with two players whose best five cards have identical
ranks and kickers (both play the board's A-K-9-8-5 high card): pot 300. -/
def tieShowdownState : AppState :=
  ⟨.river,
    [⟨0, 500, 0, [⟨.clubs, .three⟩, ⟨.diamonds, .eight⟩], .active, true, false, false⟩,
     ⟨1, 500, 0, [⟨.hearts, .three⟩, ⟨.spades, .eight⟩], .active, false, true, true⟩],
    [], [⟨.spades, .ace⟩, ⟨.diamonds, .king⟩, ⟨.clubs, .nine⟩, ⟨.hearts, .five⟩,
         ⟨.spades, .two⟩],
    300, 0, 0, 0, none, 0, false⟩

/-- A pre-flop spot where the active player (5 chips, bet 0) cannot afford a
raise to 40: `needed = 40 > 5`. -/
def shortRaiseState : AppState :=
  ⟨.preFlop, [⟨0, 5, 0, [], .active, false, false, false⟩, mkTestPlayer 1 1000],
    [], [], 30, 20, 0, 0, none, 3, false⟩

/-- A pre-flop spot where the active player (1000 chips, bet 0) raises the
bet of 20 by 20 to a total of 40. -/
def okRaiseState : AppState :=
  ⟨.preFlop, [mkTestPlayer 0 1000, ⟨1, 1000, 20, [], .active, false, false, false⟩],
    [], [], 30, 20, 0, 0, none, 3, false⟩

/-- The community board used for the kicker-tie refutation. -/
def kickerBoard : List Card :=
  [⟨.diamonds, .ace⟩, ⟨.clubs, .seven⟩, ⟨.clubs, .five⟩, ⟨.diamonds, .three⟩,
   ⟨.diamonds, .two⟩]

/-- Claim C1 (refuted by the code): in the heads-up hand with stacks
1000/1000 and blinds 10/20, posting the blinds already moves
`pot + Σ chips + Σ bets` from 2000 to 2030 (each blind is added to the pot
*and* kept in the poster's `bet`), and after the small blind folds pre-flop
the default-win payout in `handleFold` pays `pot + Σ bets` although the bets
are already inside the pot, leaving 2030 chips in play (pot and bets both 0)
where 2000 entered the hand: chips are created out of nothing. -/
theorem chip_conservation_violated_on_fold_win :
    sumChips headsUpPlayers = 2000 ∧
    conservedSum headsUpHand = 2030 ∧
    headsUpAfterFold.pot = 0 ∧
    sumBets headsUpAfterFold.players = 0 ∧
    sumChips headsUpAfterFold.players = 2030 := by
  decide

/-- Claim C2 (refuted by the code): both hands below are a pair of aces, one
with a king kicker and one with a queen kicker, yet `evaluateHand` gives both
the same comparison key `score = 114` (`100 + rank of the pair`): kickers
never enter the key, so the higher kicker does not compare greater. -/
theorem evaluateHand_key_ignores_kickers :
    (evaluateHand [⟨.spades, .ace⟩, ⟨.spades, .king⟩] kickerBoard).rankName = "Pair" ∧
    (evaluateHand [⟨.hearts, .ace⟩, ⟨.hearts, .queen⟩] kickerBoard).rankName = "Pair" ∧
    ((evaluateHand [⟨.spades, .ace⟩, ⟨.spades, .king⟩] kickerBoard).bestFive.map
        (fun c => c.rank)) = [.ace, .ace, .king, .seven, .five] ∧
    ((evaluateHand [⟨.hearts, .ace⟩, ⟨.hearts, .queen⟩] kickerBoard).bestFive.map
        (fun c => c.rank)) = [.ace, .ace, .queen, .seven, .five] ∧
    (evaluateHand [⟨.spades, .ace⟩, ⟨.spades, .king⟩] kickerBoard).score =
      (evaluateHand [⟨.hearts, .ace⟩, ⟨.hearts, .queen⟩] kickerBoard).score := by
  decide

/-- Claim C3 (refuted by the code): with pairs of 2s, 5s and 9s on
2♠2♦ + 5♥5♠9♣9♦A♠, `getNOfAKind` walks the count record's keys in JS
enumeration order (numeric keys `'2'`,`'5'`,`'9'` ascending), so the Two Pair
result is built from the pair of 2s (primary, `score = 202`) and the pair of
5s — the two *lowest* pairs; the pair of 9s is not in `bestFive` at all,
while the claim requires the two highest pairs with the highest as primary
(9s over 5s, `score` keyed on 9). -/
theorem twoPair_picks_lowest_pairs :
    (evaluateHand [⟨.spades, .two⟩, ⟨.diamonds, .two⟩]
        [⟨.hearts, .five⟩, ⟨.spades, .five⟩, ⟨.clubs, .nine⟩, ⟨.diamonds, .nine⟩,
         ⟨.spades, .ace⟩]).rankName = "Two Pair" ∧
    (evaluateHand [⟨.spades, .two⟩, ⟨.diamonds, .two⟩]
        [⟨.hearts, .five⟩, ⟨.spades, .five⟩, ⟨.clubs, .nine⟩, ⟨.diamonds, .nine⟩,
         ⟨.spades, .ace⟩]).score = 202 ∧
    ((evaluateHand [⟨.spades, .two⟩, ⟨.diamonds, .two⟩]
        [⟨.hearts, .five⟩, ⟨.spades, .five⟩, ⟨.clubs, .nine⟩, ⟨.diamonds, .nine⟩,
         ⟨.spades, .ace⟩]).bestFive.map (fun c => c.rank)) =
      [.two, .two, .five, .five, .ace] := by
  decide

/-- Claim C4 (refuted by the code): at `tieShowdownState` both players' best
five cards carry identical ranks and kickers (equal `evaluateHand` scores),
yet `handleShowdown` awards the whole 300-chip pot to the first of them
(chips 500 → 800) and nothing to the other (500), instead of splitting it
evenly. -/
theorem showdown_tie_not_split :
    (evaluateHand [⟨.clubs, .three⟩, ⟨.diamonds, .eight⟩]
        tieShowdownState.communityCards).score =
      (evaluateHand [⟨.hearts, .three⟩, ⟨.spades, .eight⟩]
        tieShowdownState.communityCards).score ∧
    ((handleShowdown tieShowdownState).players.map (fun p => p.chips)) = [800, 500] ∧
    (handleShowdown tieShowdownState).winnerIdx = some 0 := by
  decide

/-- Claim C6 (refuted by `src/App.tsx`): in the heads-up hand the dealer
(index 0) is assigned the **big** blind and posts 20, while the non-dealer
(index 1) is assigned the small blind and posts 10 — `startNewHand` uses
`sbIdx = dealer+1`, `bbIdx = dealer+2 (mod 2) = dealer` with no heads-up
special case.  (The networked variant `src/unnamed/part_001` does implement
the special case, and `src/unnamed/part_002`'s comment calls this very
behaviour wrong.) -/
theorem headsUp_dealer_posts_big_blind :
    (headsUpHand.players.getD 0 dP).isDealer = true ∧
    (headsUpHand.players.getD 0 dP).isSmallBlind = false ∧
    (headsUpHand.players.getD 0 dP).isBigBlind = true ∧
    (headsUpHand.players.getD 0 dP).bet = 20 ∧
    (headsUpHand.players.getD 1 dP).isSmallBlind = true ∧
    (headsUpHand.players.getD 1 dP).bet = 10 := by
  decide

/-- Claim C9 (refuted by the code): on quad nines with an ace on the board,
`evaluateHand` returns `bestFive` equal to just the four nines — four cards,
no fifth (kicker) card at all, although the claim requires exactly five cards
with the highest remaining card (the ace) as the kicker. -/
theorem quads_bestFive_has_four_cards :
    (evaluateHand [⟨.spades, .nine⟩, ⟨.hearts, .nine⟩]
        [⟨.diamonds, .nine⟩, ⟨.clubs, .nine⟩, ⟨.spades, .ace⟩, ⟨.diamonds, .king⟩,
         ⟨.hearts, .two⟩]).rankName = "Four of a Kind" ∧
    (evaluateHand [⟨.spades, .nine⟩, ⟨.hearts, .nine⟩]
        [⟨.diamonds, .nine⟩, ⟨.clubs, .nine⟩, ⟨.spades, .ace⟩, ⟨.diamonds, .king⟩,
         ⟨.hearts, .two⟩]).bestFive.length = 4 ∧
    ((evaluateHand [⟨.spades, .nine⟩, ⟨.hearts, .nine⟩]
        [⟨.diamonds, .nine⟩, ⟨.clubs, .nine⟩, ⟨.spades, .ace⟩, ⟨.diamonds, .king⟩,
         ⟨.hearts, .two⟩]).bestFive.map (fun c => c.rank)) =
      [.nine, .nine, .nine, .nine] := by
  decide

/-- Counterexample to claim C5: in `shortStackHand` the small blind (index 1)
calls all-in; betting then closes (`pendingNextPhase`), and the street
advance `nextPhase` sets `activePlayerIdx` to index 1 — a player whose status
is AllIn — because its scan stops at Active *or AllIn* players. -/
theorem nextPhase_selects_allin_player :
    shortStackClosed.pendingNextPhase = true ∧
    (shortStackClosed.players.getD 1 dP).status = .allIn ∧
    (nextPhase shortStackClosed).activePlayerIdx = 1 ∧
    ((nextPhase shortStackClosed).players.getD 1 dP).status = .allIn := by
  decide

/-- Counterexample to claim C7: when the raise is unaffordable
(`needed = 40 > chips = 5`), `handleRaise` returns the input state
unchanged in every field — including the log, the only channel through which
the handler surfaces anything — so the rejection is correct but *silent*: no
error is surfaced to the caller. -/
theorem raise_rejection_is_silent :
    handleRaise shortRaiseState 20 = shortRaiseState := by
  decide

/-- A Fisher–Yates swap never changes the list's contents: swapping two
in-range positions (or doing nothing when out of range) is a permutation. -/
theorem listSwap_perm {α : Type} [DecidableEq α] (l : List α) (i j : Nat) :
    (listSwap l i j).Perm l := by
  unfold listSwap
  cases hi : l[i]? with
  | none => exact List.Perm.refl l
  | some a =>
    cases hj : l[j]? with
    | none => exact List.Perm.refl l
    | some b =>
      obtain ⟨hil, hia⟩ := List.getElem?_eq_some_iff.mp hi
      obtain ⟨hjl, hjb⟩ := List.getElem?_eq_some_iff.mp hj
      subst hia
      subst hjb
      have hjl' : j < (l.set i l[j]).length := by
        rw [List.length_set]; exact hjl
      have hsetv : (l.set i l[j])[j] = l[j] := by
        rw [List.getElem_set hjl']
        by_cases hij : i = j
        · rw [if_pos hij]
        · rw [if_neg hij]
      rw [List.perm_iff_count]
      intro x
      rw [List.count_set _ _ _ _ hjl', List.count_set _ _ _ _ hil, hsetv]
      simp only [beq_iff_eq]
      have hca : l[i] = x → 1 ≤ List.count x l := by
        intro hxa
        exact List.count_pos_iff.mpr (hxa ▸ List.getElem_mem hil)
      have hcb : l[j] = x → 1 ≤ List.count x l := by
        intro hxb
        exact List.count_pos_iff.mpr (hxb ▸ List.getElem_mem hjl)
      split_ifs with h1 h2 h2
      · have ha := hca h1
        have hb := hcb h2
        omega
      · have ha := hca h1
        omega
      · have hb := hcb h2
        omega
      · omega

/-- Every pass of the Fisher–Yates loop permutes the list, whatever the
randomness source produces. -/
theorem fisherYatesLoop_perm {α : Type} [DecidableEq α] (rand : Nat → Nat) :
    ∀ (i : Nat) (l : List α), (fisherYatesLoop rand i l).Perm l
  | 0, l => List.Perm.refl l
  | i + 1, l =>
      (fisherYatesLoop_perm rand i (listSwap l (i + 1) (rand (i + 1) % (i + 2)))).trans
        (listSwap_perm l (i + 1) (rand (i + 1) % (i + 2)))

/-- `shuffleDeck` permutes its input for every randomness source. -/
theorem shuffleDeck_perm {α : Type} [DecidableEq α] (rand : Nat → Nat) (deck : List α) :
    (shuffleDeck rand deck).Perm deck :=
  fisherYatesLoop_perm rand (deck.length - 1) deck

/-- Claim C10 (confirmed): for every randomness source and every input deck,
`shuffleDeck` returns a permutation — same length and same multiset of cards
— of its input (the source also copies the input array before swapping, so
the input itself is untouched; the embedding is pure, which makes that
automatic); and `createDeck` produces exactly 52 cards, one per
(suit, rank) pair, so the shuffled fresh deck is 52 cards containing each
pair exactly once. -/
theorem shuffleDeck_is_permutation (rand : Nat → Nat) (deck : List Card) :
    (shuffleDeck rand deck).length = deck.length ∧
    Multiset.ofList (shuffleDeck rand deck) = Multiset.ofList deck ∧
    createDeck.length = 52 ∧
    (∀ s : Suit, ∀ r : Rank, createDeck.count (Card.mk s r) = 1) ∧
    (∀ s : Suit, ∀ r : Rank, (shuffleDeck rand createDeck).count (Card.mk s r) = 1) := by
  have hall : ∀ s : Suit, ∀ r : Rank, createDeck.count (Card.mk s r) = 1 := by decide
  refine ⟨(shuffleDeck_perm rand deck).length_eq, ?_, by decide, hall, ?_⟩
  · exact Quot.sound (shuffleDeck_perm rand deck)
  · intro s r
    have hperm := shuffleDeck_perm rand createDeck
    have hcnt := (List.perm_iff_count.mp hperm) (Card.mk s r)
    rw [hcnt, hall s r]

/-- A result produced by step 1 is labelled "Straight Flush". -/
theorem sfAttempt_rankName {a : List Card} {fs : Option Suit} {st : Option Nat}
    {r : HandEvaluation} (h : sfAttempt a fs st = some r) :
    r.rankName = "Straight Flush" := by
  unfold sfAttempt at h
  split at h
  · simp only at h
    split at h
    · injection h with h
      subst h
      rfl
    · exact Option.noConfusion h
  · exact Option.noConfusion h

/-- A result produced by step 2 is labelled "Four of a Kind". -/
theorem quadsAttempt_rankName {a : List Card} {r : HandEvaluation}
    (h : quadsAttempt a = some r) : r.rankName = "Four of a Kind" := by
  unfold quadsAttempt at h
  split at h
  · injection h with h
    subst h
    rfl
  · exact Option.noConfusion h

/-- A result produced by step 3 is labelled "Full House". -/
theorem fullHouseAttempt_rankName {a : List Card} {t : Option (List Card)}
    {r : HandEvaluation} (h : fullHouseAttempt a t = some r) :
    r.rankName = "Full House" := by
  unfold fullHouseAttempt at h
  split at h
  · simp only at h
    split at h
    · injection h with h
      subst h
      rfl
    · exact Option.noConfusion h
  · exact Option.noConfusion h

/-- A result produced by step 4 is labelled "Flush". -/
theorem flushAttempt_rankName {a : List Card} {fs : Option Suit}
    {r : HandEvaluation} (h : flushAttempt a fs = some r) :
    r.rankName = "Flush" := by
  unfold flushAttempt at h
  split at h
  · injection h with h
    subst h
    rfl
  · exact Option.noConfusion h

/-- A result produced by step 6 is labelled "Three of a Kind". -/
theorem tripsAttempt_rankName {a : List Card} {t : Option (List Card)}
    {r : HandEvaluation} (h : tripsAttempt a t = some r) :
    r.rankName = "Three of a Kind" := by
  unfold tripsAttempt at h
  split at h
  · injection h with h
    subst h
    rfl
  · exact Option.noConfusion h

/-- A result produced by steps 7–8 is labelled "Two Pair" or "Pair". -/
theorem pairAttempt_rankName {a : List Card} {r : HandEvaluation}
    (h : pairAttempt a = some r) :
    r.rankName = "Two Pair" ∨ r.rankName = "Pair" := by
  unfold pairAttempt at h
  split at h
  · simp only at h
    split at h
    · injection h with h
      subst h
      exact Or.inl rfl
    · injection h with h
      subst h
      exact Or.inr rfl
  · exact Option.noConfusion h

/-- Every rank value is at most 14 (the Ace). -/
theorem rank_value_le_14 (r : Rank) : RANK_VALUE r ≤ 14 := by
  cases r <;> decide

/-- A hand classified "Straight" is scored `400 + straight high card`. -/
theorem evalSorted_straight_score (a : List Card) (sh : Nat)
    (hsh : getStraightHigh a = some sh)
    (hname : (evalSorted a).rankName = "Straight") :
    (evalSorted a).score = 400 + sh := by
  simp only [evalSorted] at hname ⊢
  cases hc1 : sfAttempt a (getFlushSuit a) (getStraightHigh a) with
  | some r =>
    simp only [hc1] at hname
    have := sfAttempt_rankName hc1
    rw [this] at hname
    exact absurd hname (by decide)
  | none =>
    simp only [hc1] at hname ⊢
    cases hc2 : quadsAttempt a with
    | some r =>
      simp only [hc2] at hname
      have := quadsAttempt_rankName hc2
      rw [this] at hname
      exact absurd hname (by decide)
    | none =>
      simp only [hc2] at hname ⊢
      cases hc3 : fullHouseAttempt a (getNOfAKind a 3) with
      | some r =>
        simp only [hc3] at hname
        have := fullHouseAttempt_rankName hc3
        rw [this] at hname
        exact absurd hname (by decide)
      | none =>
        simp only [hc3] at hname ⊢
        cases hc4 : flushAttempt a (getFlushSuit a) with
        | some r =>
          simp only [hc4] at hname
          have := flushAttempt_rankName hc4
          rw [this] at hname
          exact absurd hname (by decide)
        | none =>
          simp only [hc4] at hname ⊢
          rw [hsh] at hname ⊢
          simp only [straightAttempt] at hname ⊢

/-- A hand classified "High Card" is scored by its top card's rank value,
which never exceeds 14. -/
theorem evalSorted_highCard_score (a : List Card)
    (hname : (evalSorted a).rankName = "High Card") :
    (evalSorted a).score ≤ 14 := by
  simp only [evalSorted] at hname ⊢
  cases hc1 : sfAttempt a (getFlushSuit a) (getStraightHigh a) with
  | some r =>
    simp only [hc1] at hname
    have := sfAttempt_rankName hc1
    rw [this] at hname
    exact absurd hname (by decide)
  | none =>
    simp only [hc1] at hname ⊢
    cases hc2 : quadsAttempt a with
    | some r =>
      simp only [hc2] at hname
      have := quadsAttempt_rankName hc2
      rw [this] at hname
      exact absurd hname (by decide)
    | none =>
      simp only [hc2] at hname ⊢
      cases hc3 : fullHouseAttempt a (getNOfAKind a 3) with
      | some r =>
        simp only [hc3] at hname
        have := fullHouseAttempt_rankName hc3
        rw [this] at hname
        exact absurd hname (by decide)
      | none =>
        simp only [hc3] at hname ⊢
        cases hc4 : flushAttempt a (getFlushSuit a) with
        | some r =>
          simp only [hc4] at hname
          have := flushAttempt_rankName hc4
          rw [this] at hname
          exact absurd hname (by decide)
        | none =>
          simp only [hc4] at hname ⊢
          cases hc5 : straightAttempt a (getStraightHigh a) with
          | some r =>
            simp only [hc5] at hname
            have : r.rankName = "Straight" := by
              unfold straightAttempt at hc5
              split at hc5
              · injection hc5 with h
                subst h
                rfl
              · exact Option.noConfusion hc5
            rw [this] at hname
            exact absurd hname (by decide)
          | none =>
            simp only [hc5] at hname ⊢
            cases hc6 : tripsAttempt a (getNOfAKind a 3) with
            | some r =>
              simp only [hc6] at hname
              have := tripsAttempt_rankName hc6
              rw [this] at hname
              exact absurd hname (by decide)
            | none =>
              simp only [hc6] at hname ⊢
              cases hc7 : pairAttempt a with
              | some r =>
                simp only [hc7] at hname
                rcases pairAttempt_rankName hc7 with hh | hh <;>
                  (rw [hh] at hname; exact absurd hname (by decide))
              | none =>
                simp only [hc7]
                exact rank_value_le_14 (firstRank a)

/-- Claim C8 (confirmed): whenever `evaluateHand` classifies a hand as a
Straight whose detected high card is 5 (the wheel A-2-3-4-5), its key is
`405` — strictly below the key `406` of any hand whose detected straight
high card is 6, and strictly above the key (at most 14) of any input that
makes no better category than High Card. -/
theorem wheel_straight_between_highcard_and_six_high
    (h1 c1 h2 c2 h3 c3 : List Card)
    (hs1 : (evaluateHand h1 c1).rankName = "Straight")
    (hw1 : getStraightHigh (sortCardsDesc (h1 ++ c1)) = some 5)
    (hs2 : (evaluateHand h2 c2).rankName = "Straight")
    (hw2 : getStraightHigh (sortCardsDesc (h2 ++ c2)) = some 6)
    (hs3 : (evaluateHand h3 c3).rankName = "High Card") :
    (evaluateHand h3 c3).score < (evaluateHand h1 c1).score ∧
    (evaluateHand h1 c1).score < (evaluateHand h2 c2).score := by
  have e1 : (evaluateHand h1 c1).score = 400 + 5 :=
    evalSorted_straight_score (sortCardsDesc (h1 ++ c1)) 5 hw1 hs1
  have e2 : (evaluateHand h2 c2).score = 400 + 6 :=
    evalSorted_straight_score (sortCardsDesc (h2 ++ c2)) 6 hw2 hs2
  have e3 : (evaluateHand h3 c3).score ≤ 14 :=
    evalSorted_highCard_score (sortCardsDesc (h3 ++ c3)) hs3
  omega

/-- Witness for C8: a concrete wheel straight (A♠2♦ on 3♣4♥5♠9♦J♣), a
concrete 6-high straight and a concrete ace-high no-pair hand instantiate
the theorem's hypotheses. -/
theorem wheel_straight_between_highcard_and_six_high_witness :
    (evaluateHand [⟨.spades, .two⟩, ⟨.diamonds, .four⟩]
        [⟨.clubs, .six⟩, ⟨.hearts, .eight⟩, ⟨.spades, .ten⟩, ⟨.diamonds, .queen⟩,
         ⟨.clubs, .ace⟩]).score <
      (evaluateHand [⟨.spades, .ace⟩, ⟨.diamonds, .two⟩]
        [⟨.clubs, .three⟩, ⟨.hearts, .four⟩, ⟨.spades, .five⟩, ⟨.diamonds, .nine⟩,
         ⟨.clubs, .jack⟩]).score ∧
    (evaluateHand [⟨.spades, .ace⟩, ⟨.diamonds, .two⟩]
        [⟨.clubs, .three⟩, ⟨.hearts, .four⟩, ⟨.spades, .five⟩, ⟨.diamonds, .nine⟩,
         ⟨.clubs, .jack⟩]).score <
      (evaluateHand [⟨.spades, .two⟩, ⟨.diamonds, .three⟩]
        [⟨.clubs, .four⟩, ⟨.hearts, .five⟩, ⟨.spades, .six⟩, ⟨.diamonds, .nine⟩,
         ⟨.clubs, .jack⟩]).score :=
  wheel_straight_between_highcard_and_six_high _ _ _ _ _ _
    (by decide) (by decide) (by decide) (by decide) (by decide)

/-- If some position reachable within the remaining fuel and step budget is
not skipped, the scan stops on a non-skipped player: it halts at the first
such position. -/
theorem scanIdxF_not_skip (skip : Player → Bool) (players : List Player) :
    ∀ (fuel idx cnt : Nat), idx < players.length →
    (∃ t, t ≤ fuel ∧ cnt + t ≤ players.length ∧
        skip (players.getD ((idx + t) % players.length) dP) = false) →
    skip (players.getD (scanIdxF skip players fuel idx cnt) dP) = false := by
  intro fuel
  induction fuel with
  | zero =>
    intro idx cnt hidx hex
    obtain ⟨t, ht0, _, hts⟩ := hex
    have : t = 0 := Nat.le_zero.mp ht0
    subst this
    have hmod : idx % players.length = idx := Nat.mod_eq_of_lt hidx
    rw [Nat.add_zero, hmod] at hts
    simpa [scanIdxF] using hts
  | succ fuel ih =>
    intro idx cnt hidx hex
    obtain ⟨t, ht0, htn, hts⟩ := hex
    by_cases hskip : skip (players.getD idx dP) = true
    · have hn : 0 < players.length := by omega
      have htpos : t ≠ 0 := by
        intro h0
        subst h0
        rw [Nat.add_zero, Nat.mod_eq_of_lt hidx] at hts
        rw [hskip] at hts
        exact Bool.noConfusion hts
      have hcnt : cnt < players.length := by omega
      rw [scanIdxF]
      rw [if_pos ⟨hskip, hcnt⟩]
      apply ih ((idx + 1) % players.length) (cnt + 1) (Nat.mod_lt _ hn)
      refine ⟨t - 1, by omega, by omega, ?_⟩
      have harith : ((idx + 1) % players.length + (t - 1)) % players.length
          = (idx + t) % players.length := by
        rw [Nat.mod_add_mod]
        congr 1
        omega
      rw [harith]
      exact hts
    · have hskip' : skip (players.getD idx dP) = false := by
        cases h : skip (players.getD idx dP)
        · rfl
        · exact absurd h hskip
      rw [scanIdxF]
      rw [if_neg (by rw [hskip']; simp)]
      exact hskip'

/-- The full scan (counter starting at 0) lands on a non-skipped player
whenever any index of the list holds one: starting anywhere, a budget of
`players.length` wrapping steps reaches every index. -/
theorem scanIdx_not_skip (skip : Player → Bool) (players : List Player)
    (idx : Nat) (hidx : idx < players.length)
    (hex : ∃ j, j < players.length ∧ skip (players.getD j dP) = false) :
    skip (players.getD (scanIdx skip players idx 0) dP) = false := by
  obtain ⟨j, hj, hjs⟩ := hex
  have hn : 0 < players.length := Nat.lt_of_le_of_lt (Nat.zero_le _) hj
  apply scanIdxF_not_skip skip players (players.length + 1 - 0) idx 0 hidx
  by_cases hcase : idx ≤ j
  · refine ⟨j - idx, by omega, by omega, ?_⟩
    have : idx + (j - idx) = j := by omega
    rw [this, Nat.mod_eq_of_lt hj]
    exact hjs
  · refine ⟨j + players.length - idx, by omega, by omega, ?_⟩
    have : idx + (j + players.length - idx) = j + players.length := by omega
    rw [this, Nat.add_mod_right, Nat.mod_eq_of_lt hj]
    exact hjs

/-- `moveToNextPlayer`'s skip test rejects exactly the non-Active statuses. -/
theorem skipFBA_false_iff (p : Player) :
    skipFBA p = false ↔ p.status = PlayerStatus.active := by
  unfold skipFBA
  cases hp : p.status <;> simp

/-- `nextPhase`'s skip test accepts exactly Active and AllIn players. -/
theorem skipNotActiveAllIn_false_iff (p : Player) :
    skipNotActiveAllIn p = false ↔
      (p.status = PlayerStatus.active ∨ p.status = PlayerStatus.allIn) := by
  unfold skipNotActiveAllIn
  cases hp : p.status <;> simp

/-- A field update that keeps `status` keeps every player's status. -/
theorem setAt_getD_status (l : List Player) (i k : Nat) (f : Player → Player)
    (hf : ∀ p, (f p).status = p.status) :
    ((setAt l i f).getD k dP).status = (l.getD k dP).status := by
  unfold setAt
  cases hi : l[i]? with
  | none => rfl
  | some p =>
    rw [List.getD_eq_getElem?_getD, List.getD_eq_getElem?_getD, List.getElem?_set]
    by_cases hik : i = k
    · subst hik
      obtain ⟨hl, hv⟩ := List.getElem?_eq_some_iff.mp hi
      rw [if_pos rfl, if_pos hl, hi]
      simp only [Option.getD_some]
      rw [hf p, ← hv]
    · rw [if_neg hik]

/-- `handleShowdown` never moves the turn pointer and never changes a
player's status (it only adds chips to the winner). -/
theorem handleShowdown_turn_fields (s : AppState) (k : Nat) :
    (handleShowdown s).activePlayerIdx = s.activePlayerIdx ∧
    ((handleShowdown s).players.getD k dP).status = (s.players.getD k dP).status := by
  simp only [handleShowdown]
  split
  · exact ⟨rfl, rfl⟩
  · split
    · exact ⟨rfl, rfl⟩
    · refine ⟨rfl, ?_⟩
      exact setAt_getD_status _ _ _ _ (fun p => rfl)

/-- The turn pointer's status classification survives the showdown run at
the end of `nextPhase`. -/
theorem showdown_status_carry (t : AppState)
    (h : (t.players.getD t.activePlayerIdx dP).status = PlayerStatus.active ∨
      (t.players.getD t.activePlayerIdx dP).status = PlayerStatus.allIn) :
    ((handleShowdown t).players.getD (handleShowdown t).activePlayerIdx dP).status
        = PlayerStatus.active ∨
    ((handleShowdown t).players.getD (handleShowdown t).activePlayerIdx dP).status
        = PlayerStatus.allIn := by
  rw [(handleShowdown_turn_fields t 0).1,
    (handleShowdown_turn_fields t t.activePlayerIdx).2]
  exact h

/-- Amended claim C5: on a non-empty table with at least one Active-or-AllIn
player, (a) whenever `moveToNextPlayer` moves `activePlayerIdx` after a
player action it moves it to an **Active** player — never Folded, Busted or
AllIn (when betting closes instead, the pointer is left alone and the street
advance is scheduled); but (b) at a street boundary `nextPhase` resets
`activePlayerIdx` to the first Active **or AllIn** player after the dealer —
an AllIn player can be selected there, which is what refutes the original
claim (see `nextPhase_selects_allin_player`). -/
theorem turn_advance_status (s : AppState) (cb : Int)
    (hne : s.players ≠ [])
    (hex : ∃ p ∈ s.players, p.status = PlayerStatus.active ∨ p.status = PlayerStatus.allIn) :
    ((moveToNextPlayer s cb).activePlayerIdx ≠ s.activePlayerIdx →
      ((moveToNextPlayer s cb).players.getD (moveToNextPlayer s cb).activePlayerIdx dP).status
        = PlayerStatus.active) ∧
    (((nextPhase s).players.getD (nextPhase s).activePlayerIdx dP).status
        = PlayerStatus.active ∨
      ((nextPhase s).players.getD (nextPhase s).activePlayerIdx dP).status
        = PlayerStatus.allIn) := by
  have hn : 0 < s.players.length := List.length_pos.mpr hne
  constructor
  · simp only [moveToNextPlayer]
    split
    · intro h
      exact absurd rfl h
    · split
      · intro h
        exact absurd rfl h
      · next h1 h2 =>
        intro _
        have hex2 : ∃ j, j < s.players.length ∧
            skipFBA (s.players.getD j dP) = false := by
          have hlen : (s.players.filter
              (fun p => p.status = PlayerStatus.active)).length ≠ 0 := by
            intro h0
            exact h1 (Or.inl h0)
          have hnil : s.players.filter (fun p => p.status = PlayerStatus.active) ≠ [] := by
            intro h0
            rw [h0] at hlen
            exact hlen rfl
          obtain ⟨p, hp⟩ := List.exists_mem_of_ne_nil _ hnil
          have hmem := List.mem_filter.mp hp
          obtain ⟨j, hjl, hpj⟩ := List.getElem_of_mem hmem.1
          refine ⟨j, hjl, ?_⟩
          rw [List.getD_eq_getElem _ _ hjl, hpj, skipFBA_false_iff]
          exact of_decide_eq_true hmem.2
        exact (skipFBA_false_iff _).mp
          (scanIdx_not_skip skipFBA s.players _ (Nat.mod_lt _ hn) hex2)
  · simp only [nextPhase]
    have hmaplen : (s.players.map (fun p => { p with bet := 0 })).length
        = s.players.length := List.length_map _ _
    have hex2 : ∃ j, j < (s.players.map (fun p => { p with bet := 0 })).length ∧
        skipNotActiveAllIn ((s.players.map (fun p => { p with bet := 0 })).getD j dP)
          = false := by
      obtain ⟨p, hpmem, hpst⟩ := hex
      obtain ⟨j, hjl, hpj⟩ := List.getElem_of_mem hpmem
      refine ⟨j, by omega, ?_⟩
      have hjl2 : j < (s.players.map (fun p => { p with bet := 0 })).length := by omega
      rw [List.getD_eq_getElem _ _ hjl2, List.getElem_map, hpj,
        skipNotActiveAllIn_false_iff]
      exact hpst
    have hscan := scanIdx_not_skip skipNotActiveAllIn
      (s.players.map (fun p => { p with bet := 0 }))
      ((s.dealerIdx + 1) % (s.players.map (fun p => { p with bet := 0 })).length)
      (Nat.mod_lt _ (by omega)) hex2
    have hstat := (skipNotActiveAllIn_false_iff _).mp hscan
    cases hph : s.phase
    case preFlop => exact hstat
    case flop => exact hstat
    case turn => exact hstat
    case setup => exact showdown_status_carry _ hstat
    case river => exact showdown_status_carry _ hstat
    case showdown => exact showdown_status_carry _ hstat

/-- `moveToNextPlayer` only touches `activePlayerIdx` (or schedules the
street advance): the player list is unchanged. -/
theorem moveToNextPlayer_players (s : AppState) (cb : Int) :
    (moveToNextPlayer s cb).players = s.players := by
  simp only [moveToNextPlayer]
  split
  · rfl
  · split
    · rfl
    · rfl

/-- `moveToNextPlayer` leaves the pot unchanged. -/
theorem moveToNextPlayer_pot (s : AppState) (cb : Int) :
    (moveToNextPlayer s cb).pot = s.pot := by
  simp only [moveToNextPlayer]
  split
  · rfl
  · split
    · rfl
    · rfl

/-- `moveToNextPlayer` leaves `currentBet` unchanged. -/
theorem moveToNextPlayer_currentBet (s : AppState) (cb : Int) :
    (moveToNextPlayer s cb).currentBet = s.currentBet := by
  simp only [moveToNextPlayer]
  split
  · rfl
  · split
    · rfl
    · rfl

/-- Reading back the updated index after an in-place player update. -/
theorem setAt_getD_same (l : List Player) (i : Nat) (f : Player → Player)
    (h : i < l.length) :
    (setAt l i f).getD i dP = f (l.getD i dP) := by
  unfold setAt
  cases hi : l[i]? with
  | none =>
    rw [List.getElem?_eq_none_iff] at hi
    omega
  | some p =>
    rw [List.getD_eq_getElem?_getD, List.getElem?_set, if_pos rfl, if_pos h,
      List.getD_eq_getElem?_getD, hi]
    simp only [Option.getD_some]

/-- Amended claim C7: for every `Raise(amount)` the new total bet is
`currentBet + amount` and the required additional chips are
`newTotal - bet`; if `required > chips` the action is rejected with **no
state change at all and no error surfaced** (the returned state, log
included, is the input state — the surfacing part of the original claim
fails, see `raise_rejection_is_silent`); on success the player's bet becomes
`newTotal`, `currentBet` becomes `newTotal`, and the pot increases by
`required`. -/
theorem handleRaise_spec (s : AppState) (amount : Int)
    (hidx : s.activePlayerIdx < s.players.length) :
    ((s.players.getD s.activePlayerIdx dP).chips <
        s.currentBet + amount - (s.players.getD s.activePlayerIdx dP).bet →
      handleRaise s amount = s) ∧
    (s.currentBet + amount - (s.players.getD s.activePlayerIdx dP).bet ≤
        (s.players.getD s.activePlayerIdx dP).chips →
      ((handleRaise s amount).players.getD s.activePlayerIdx dP).bet
          = s.currentBet + amount ∧
      ((handleRaise s amount).players.getD s.activePlayerIdx dP).chips
          = (s.players.getD s.activePlayerIdx dP).chips -
            (s.currentBet + amount - (s.players.getD s.activePlayerIdx dP).bet) ∧
      (handleRaise s amount).currentBet = s.currentBet + amount ∧
      (handleRaise s amount).pot = s.pot +
        (s.currentBet + amount - (s.players.getD s.activePlayerIdx dP).bet)) := by
  constructor
  · intro hlt
    simp only [handleRaise]
    rw [if_pos hlt]
  · intro hle
    simp only [handleRaise]
    rw [if_neg (by omega)]
    rw [moveToNextPlayer_players, moveToNextPlayer_pot, moveToNextPlayer_currentBet]
    rw [setAt_getD_same _ _ _ hidx]
    exact ⟨rfl, rfl, rfl, rfl⟩

/-- Witness for the amended C5 at the concrete three-player state
`shortStackHand` (non-empty, with Active players). -/
theorem turn_advance_status_witness :
    ((moveToNextPlayer shortStackHand 20).activePlayerIdx ≠ shortStackHand.activePlayerIdx →
      ((moveToNextPlayer shortStackHand 20).players.getD
          (moveToNextPlayer shortStackHand 20).activePlayerIdx dP).status
        = PlayerStatus.active) ∧
    (((nextPhase shortStackHand).players.getD (nextPhase shortStackHand).activePlayerIdx
          dP).status = PlayerStatus.active ∨
      ((nextPhase shortStackHand).players.getD (nextPhase shortStackHand).activePlayerIdx
          dP).status = PlayerStatus.allIn) :=
  turn_advance_status shortStackHand 20 (by decide) (by decide)

/-- Witness for the amended C7: at `okRaiseState` a raise by 20 over a
current bet of 20 makes the bet 40, costs 40 chips, and grows the pot by
40. -/
theorem handleRaise_spec_witness :
    ((handleRaise okRaiseState 20).players.getD 0 dP).bet = 40 ∧
    ((handleRaise okRaiseState 20).players.getD 0 dP).chips = 960 ∧
    (handleRaise okRaiseState 20).currentBet = 40 ∧
    (handleRaise okRaiseState 20).pot = 70 :=
  (handleRaise_spec okRaiseState 20 (by decide)).2 (by decide)

/-- Witness for C10 at a concrete randomness source and deck: the shuffled
fresh deck is a 52-card permutation of `createDeck`. -/
theorem shuffleDeck_is_permutation_witness :
    (shuffleDeck (fun i => i * 7 + 3) createDeck).length = createDeck.length ∧
    Multiset.ofList (shuffleDeck (fun i => i * 7 + 3) createDeck)
      = Multiset.ofList createDeck ∧
    createDeck.length = 52 ∧
    (∀ s : Suit, ∀ r : Rank, createDeck.count (Card.mk s r) = 1) ∧
    (∀ s : Suit, ∀ r : Rank,
      (shuffleDeck (fun i => i * 7 + 3) createDeck).count (Card.mk s r) = 1) :=
  shuffleDeck_is_permutation (fun i => i * 7 + 3) createDeck
